import Mathlib

/-!
Verification development for the single-cell gene-regulatory-network script
`03_celltype_individual_comparison/individual_networks_for_selected_genepairs.py`.

The numeric core of the script works on numpy double arrays.  We embed the
values as `Flt`: an exact real number, a signed infinity, or NaN.  The exact
real arithmetic of the script's formulas is represented by real arithmetic;
the IEEE special cases that the formulas can actually produce (division by
an exact zero, square roots of negative numbers, multiplication of a finite
number with an infinity, NaN propagation) are represented explicitly by the
operations below.  Divisions by zero in the script's formulas only arise
with an exact `+0` denominator (for instance `1 - coef**2` at `coef = 1`),
so division of a positive number by zero is modelled as `+inf`.

External library functions without a closed form (`scipy.stats.t.cdf`,
`t.sf`, `scipy.stats.norm.ppf`) are modelled as abstract parameters
`f g : ℝ → ℝ` giving their values at finite arguments, lifted to `Flt`
with their documented behaviour at `±inf` and NaN.
-/

/-- Model of a numpy double: NaN, plus or minus infinity, or a finite real. -/
inductive Flt where
  | nan : Flt
  | inf : Flt
  | ninf : Flt
  | fin : ℝ → Flt

namespace Flt

/-- Is the value a finite number (not NaN, not an infinity)? -/
def isFin : Flt → Bool
  | .fin _ => true
  | _ => false

end Flt

noncomputable section

/-- IEEE negation. -/
def negF : Flt → Flt
  | .nan => .nan
  | .inf => .ninf
  | .ninf => .inf
  | .fin x => .fin (-x)

/-- IEEE addition (`inf + ninf = nan`, NaN propagates). -/
def addF : Flt → Flt → Flt
  | .nan, _ => .nan
  | _, .nan => .nan
  | .inf, .ninf => .nan
  | .inf, _ => .inf
  | .ninf, .inf => .nan
  | .ninf, _ => .ninf
  | .fin _, .inf => .inf
  | .fin _, .ninf => .ninf
  | .fin x, .fin y => .fin (x + y)

/-- IEEE subtraction. -/
def subF (a b : Flt) : Flt := addF a (negF b)

/-- IEEE multiplication (`0 * inf = nan`, NaN propagates). -/
def mulF : Flt → Flt → Flt
  | .nan, _ => .nan
  | _, .nan => .nan
  | .inf, .inf => .inf
  | .inf, .ninf => .ninf
  | .ninf, .inf => .ninf
  | .ninf, .ninf => .inf
  | .inf, .fin y => if y = 0 then .nan else if 0 < y then .inf else .ninf
  | .ninf, .fin y => if y = 0 then .nan else if 0 < y then .ninf else .inf
  | .fin x, .inf => if x = 0 then .nan else if 0 < x then .inf else .ninf
  | .fin x, .ninf => if x = 0 then .nan else if 0 < x then .ninf else .inf
  | .fin x, .fin y => .fin (x * y)

/-- IEEE division.  A zero denominator in the script's formulas is always the
exact `+0` produced by real cancellation, so `x / 0` is `±inf` by the sign of
`x` (and `0 / 0 = nan`). -/
def divF : Flt → Flt → Flt
  | .nan, _ => .nan
  | _, .nan => .nan
  | .inf, .inf => .nan
  | .inf, .ninf => .nan
  | .ninf, .inf => .nan
  | .ninf, .ninf => .nan
  | .inf, .fin y => if 0 ≤ y then .inf else .ninf
  | .ninf, .fin y => if 0 ≤ y then .ninf else .inf
  | .fin _, .inf => .fin 0
  | .fin _, .ninf => .fin 0
  | .fin x, .fin y =>
    if y = 0 then (if x = 0 then .nan else if 0 < x then .inf else .ninf)
    else .fin (x / y)

/-- `np.sqrt`: NaN on negative arguments, `inf` at `inf`. -/
def sqrtF : Flt → Flt
  | .nan => .nan
  | .inf => .inf
  | .ninf => .nan
  | .fin x => if x < 0 then .nan else .fin (Real.sqrt x)

/-- Elementwise square (`coef ** 2`). -/
def sqF : Flt → Flt
  | .nan => .nan
  | .inf => .inf
  | .ninf => .inf
  | .fin x => .fin (x ^ 2)

/-- `np.abs`. -/
def absF : Flt → Flt
  | .nan => .nan
  | .inf => .inf
  | .ninf => .inf
  | .fin x => .fin |x|

/-- `.clip(0)`: lower-clip at zero; NaN propagates (as `np.maximum`). -/
def clip0F : Flt → Flt
  | .nan => .nan
  | .inf => .inf
  | .ninf => .fin 0
  | .fin x => .fin (max x 0)

/-- The elementwise comparison `coef < 0` (False on NaN, as in numpy). -/
def ltZeroF : Flt → Bool
  | .nan => false
  | .inf => false
  | .ninf => true
  | .fin x => decide (x < 0)

/-- The elementwise comparison `coef > 0` (False on NaN, as in numpy). -/
def gtZeroF : Flt → Bool
  | .nan => false
  | .inf => true
  | .ninf => false
  | .fin x => decide (0 < x)

/-- `scipy.stats.t.sf(x, dof)` lifted to `Flt`: the survival function of the
Student t distribution is 0 at `+inf`, 1 at `-inf`, NaN at NaN; its values at
finite arguments are the abstract parameter `f`. -/
def tsfF (f : ℝ → ℝ) : Flt → Flt
  | .nan => .nan
  | .inf => .fin 0
  | .ninf => .fin 1
  | .fin x => .fin (f x)

/-- `scipy.stats.t.cdf(x, dof)` lifted to `Flt`: 1 at `+inf`, 0 at `-inf`,
NaN at NaN; finite values given by the abstract parameter `f`. -/
def tcdfF (f : ℝ → ℝ) : Flt → Flt
  | .nan => .nan
  | .inf => .fin 1
  | .ninf => .fin 0
  | .fin x => .fin (f x)

/-- `scipy.stats.norm.ppf(p)` lifted to `Flt`: `-inf` at 0, `+inf` at 1, NaN
outside `[0,1]` and at non-finite arguments; values on `(0,1)` given by the
abstract parameter `g`. -/
def nppfF (g : ℝ → ℝ) : Flt → Flt
  | .nan => .nan
  | .inf => .nan
  | .ninf => .nan
  | .fin x =>
    if x ≤ 0 then (if x = 0 then .ninf else .nan)
    else if 1 ≤ x then (if x = 1 then .inf else .nan)
    else .fin (g x)

/-- `corr_to_z`, line 78: `t_statistic = coef * np.sqrt((num - 2) / (1 - coef ** 2))`.
Note: no `.clip(0)` on the radicand, unlike `spearmanr_withnan`. -/
def tStatCtz (c : Flt) (num : ℕ) : Flt :=
  mulF c (sqrtF (divF (.fin ((num : ℝ) - 2)) (subF (.fin 1) (sqF c))))

/-- `corr_to_z`, line 79: `prob = t.cdf(t_statistic, num - 2)`. -/
def probCtz (f : ℝ → ℝ) (c : Flt) (num : ℕ) : Flt :=
  tcdfF f (tStatCtz c num)

/-- `corr_to_z`, line 80: `z_score = norm.ppf(prob)` — applied to the
unsigned one-sided probability. -/
def zScoreCtz (f g : ℝ → ℝ) (c : Flt) (num : ℕ) : Flt :=
  nppfF g (probCtz f c num)

/-- `corr_to_z`, lines 81-82: `positive_coef_probs = 1 - prob`, then zeroed
where `coef < 0`. -/
def posProbCtz (f : ℝ → ℝ) (c : Flt) (num : ℕ) : Flt :=
  if ltZeroF c then .fin 0 else subF (.fin 1) (probCtz f c num)

/-- `corr_to_z`, lines 83-84: `negative_coef_probs = prob`, then zeroed where
`coef > 0`. -/
def negProbCtz (f : ℝ → ℝ) (c : Flt) (num : ℕ) : Flt :=
  if gtZeroF c then .fin 0 else probCtz f c num

/-- `corr_to_z`, line 85: `probs = negative_coef_probs + positive_coef_probs`. -/
def probsCtz (f : ℝ → ℝ) (c : Flt) (num : ℕ) : Flt :=
  addF (negProbCtz f c num) (posProbCtz f c num)

/-- `corr_to_z(coef, num)` on a whole coefficient array: returns the pair
`(z_score, probs)` elementwise. -/
def corr_to_z (f g : ℝ → ℝ) (coef : List Flt) (num : ℕ) : List Flt × List Flt :=
  (coef.map (fun c => zScoreCtz f g c num), coef.map (fun c => probsCtz f c num))

/-- `spearmanr_withnan`, line 165 with `dof = n_obs - 2` from line 162:
`t_ = rs * np.sqrt((dof / ((rs + 1.0) * (1.0 - rs))).clip(0))`. -/
def tStatEngine (r : Flt) (num : ℕ) : Flt :=
  mulF r (sqrtF (clip0F (divF (.fin ((num : ℝ) - 2))
    (mulF (addF r (.fin 1)) (subF (.fin 1) r)))))

end

/-!  The observation matrix handed to `spearmanr_withnan` by the pipeline is a
dense cells-by-genes matrix; a missing value (NaN) is modelled as `none`.
Rows are observations, columns are variables: the pipeline always calls the
function with `axis=0`, and this embedding is that instantiation. -/

/-- `scipy.stats.rankdata` with the default `average` method on one column.
NaN sorts after every number (numpy argsort places NaN last), so a NaN gets
rank `#nonNaN + #NaN-before-it + 1`, while a number gets the average rank of
its tie group among the non-NaN values. -/
def rankdata (xs : List (Option ℚ)) : List ℚ :=
  let vals := xs.filterMap id
  (List.range xs.length).map fun i =>
    match xs.getD i none with
    | some q =>
      (vals.countP (fun w => decide (w < q)) : ℚ) +
        ((vals.countP (fun w => decide (w = q)) : ℚ) + 1) / 2
    | none => (vals.length : ℚ) + ((xs.take i).countP (fun v => v.isNone) : ℚ) + 1

/-- Column `j` of a row-major matrix. -/
def colOf (a : List (List (Option ℚ))) (j : ℕ) : List (Option ℚ) :=
  a.map (fun row => row.getD j none)

/-- `np.apply_along_axis(rankdata, 0, a)` restricted to column `j`. -/
def colRanks (a : List (List (Option ℚ))) (j : ℕ) : List ℚ :=
  rankdata (colOf a j)

/-- Arithmetic mean of a rational list (division by zero yields 0, only the
nonempty case is ever reached). -/
def meanQ (xs : List ℚ) : ℚ := xs.sum / xs.length

/-- Sample covariance with `ddof = 1`, as `np.cov` uses inside `np.corrcoef`. -/
def covQ (x y : List ℚ) : ℚ :=
  ((x.zip y).map (fun p => (p.1 - meanQ x) * (p.2 - meanQ y))).sum /
    ((x.length : ℚ) - 1)

/-- Sample variance (`np.cov` diagonal). -/
def varQ (x : List ℚ) : ℚ := covQ x x

/-- One entry of `np.corrcoef` on rank-transformed data (which carries no
NaN): `cov / (sqrt var * sqrt var)`.  A zero variance makes the entry
`0/0 = nan`, as numpy produces there; the defensive clip of the matrix to
`[-1, 1]` inside `np.corrcoef` is the identity because the exact values
already satisfy the Cauchy-Schwarz bound. -/
noncomputable def corrEntry (x y : List ℚ) : Flt :=
  if varQ x = 0 ∨ varQ y = 0 then Flt.nan
  else Flt.fin ((covQ x y : ℝ) / (Real.sqrt (varQ x) * Real.sqrt (varQ y)))

/-- The number of variables `a.shape[1]` of a 2-D row-major matrix. -/
def nVarsOf (a : List (List (Option ℚ))) : ℕ := (a.headD []).length

/-- `_contains_nan(a)` for the `propagate` policy: `np.isnan(np.sum(a))`. -/
def hasNanOf (a : List (List (Option ℚ))) : Bool :=
  a.any (fun row => row.any (fun v => v.isNone))

/-- `np.isnan(a).sum(axis=0)` — the per-variable NaN COUNTS.  The script
assigns this integer array to `variable_has_nan` (upstream scipy uses
`.any(axis)` there), so the later `rs[variable_has_nan, :] = np.nan` is
integer fancy indexing: the rows whose index OCCURS AMONG THE COUNTS are
overwritten.  (The embedding assumes every count is `< n_vars`; a count
`≥ n_vars` would raise an IndexError in numpy.) -/
def nanCountsOf (a : List (List (Option ℚ))) : List ℕ :=
  (List.range (nVarsOf a)).map (fun j => (colOf a j).countP (fun v => v.isNone))

/-- Result of `spearmanr_withnan`: either the backward-compatible scalar pair
or the full pair of matrices. -/
inductive SpearmanRes where
  | scalar : Flt → Flt → SpearmanRes
  | mat : List (List Flt) → List (List Flt) → SpearmanRes

/-- Is a (possibly aborted) result a matrix pair? -/
def resIsMat : Option SpearmanRes → Bool
  | some (.mat _ _) => true
  | _ => false

/-- Is a (possibly aborted) result a scalar pair? -/
def resIsScalar : Option SpearmanRes → Bool
  | some (.scalar _ _) => true
  | _ => false

/-- Correlation component (empty for the scalar and abort cases). -/
def resRs : Option SpearmanRes → List (List Flt)
  | some (.mat rs _) => rs
  | _ => []

/-- P-value component (empty for the scalar and abort cases). -/
def resProb : Option SpearmanRes → List (List Flt)
  | some (.mat _ prob) => prob
  | _ => []

/-- Matrix entry access (`m[i][j]`). -/
def getM (m : List (List Flt)) (i j : ℕ) : Flt := (m.getD i []).getD j .nan

/-- `spearmanr_withnan(a, axis=0, nan_policy='propagate')`, lines 139-173.
`f` is the abstract finite-argument part of `scipy.stats.t.sf(·, dof)`.
Control flow follows the source: fewer than 2 observations gives scalar NaN;
NaN present with at most 2 variables gives scalar NaN; with zero variables
`np.apply_along_axis` raises ValueError at line 160 — the run aborts, which
is modelled as `none`; otherwise ranks, `np.corrcoef`, the clipped t
statistic and `prob = 2 * t.sf(|t_|, dof)` are computed from the UNMASKED
correlation matrix; a 2-by-2 `rs` returns the scalar pair; with a single
variable `rs` is the squeezed 0-d array `np.corrcoef` produces for a scalar
covariance, so the masking assignment `rs[variable_has_nan, :] = np.nan` of
line 171 raises IndexError (again `none`); and finally the rows and columns
of `rs` (only `rs`) indexed by the entries of `variable_has_nan` — the
integer NaN counts — are overwritten with NaN. -/
noncomputable def spearmanr_withnan (f : ℝ → ℝ) (a : List (List (Option ℚ))) :
    Option SpearmanRes :=
  if a.length ≤ 1 then some (.scalar .nan .nan)
  else if hasNanOf a = true ∧ nVarsOf a ≤ 2 then some (.scalar .nan .nan)
  else if nVarsOf a = 0 then none
  else
    let nVars := nVarsOf a
    let nanIdx : List ℕ := if hasNanOf a then nanCountsOf a else []
    let rs0 : ℕ → ℕ → Flt := fun i j => corrEntry (colRanks a i) (colRanks a j)
    let probE : ℕ → ℕ → Flt := fun i j =>
      mulF (.fin 2) (tsfF f (absF (tStatEngine (rs0 i j) a.length)))
    if nVars = 2 then some (.scalar (rs0 1 0) (probE 1 0))
    else if nVars = 1 then none
    else
      some (.mat
        ((List.range nVars).map (fun i => (List.range nVars).map (fun j =>
          if i ∈ nanIdx ∨ j ∈ nanIdx then .nan else rs0 i j)))
        ((List.range nVars).map (fun i => (List.range nVars).map (probE i))))

/-- `select_gene_nonzeroratio`, line 72: the fraction of rows (cells) in
which column `j` is non-zero.  `np.count_nonzero` counts NaN as non-zero;
with zero rows the rational division yields 0 and numpy's `0/0 = nan`
comparison is likewise false, so both exclude every gene. -/
def nonzeroFrac (rows : List (List (Option ℚ))) (j : ℕ) : ℚ :=
  (rows.countP (fun row => decide (row.getD j (some 0) ≠ some 0)) : ℚ) /
    (rows.length : ℚ)

/-- Indices of the columns passing the strict threshold `nonzerocounts > r`. -/
def selectGeneIdx (rows : List (List (Option ℚ))) (nGenes : ℕ) (r : ℚ) :
    List ℕ :=
  (List.range nGenes).filter (fun j => decide (r < nonzeroFrac rows j))

/-- `select_gene_nonzeroratio(df, ratio)`, lines 71-74: the gene names whose
non-zero fraction strictly exceeds `r`, in original column order
(`df.columns[nonzerocounts > ratio]`). -/
def select_gene_nonzerofrac (rows : List (List (Option ℚ)))
    (genes : List String) (r : ℚ) : List String :=
  (selectGeneIdx rows genes.length r).map (fun j => genes.getD j "")

/-- The gene-pair label of line 183: `';'.join(sorted((a, b)))`.  Python
`sorted` on a two-element tuple yields `[a, b]` unless `b < a`. -/
def canonPair (a b : String) : String :=
  if b < a then b ++ ";" ++ a else a ++ ";" ++ b

/-- `itertools.combinations(l, 2)` in its row-major order
`(l0,l1),(l0,l2),…,(l1,l2),…`. -/
def pairCombos {α : Type} : List α → List (α × α)
  | [] => []
  | x :: xs => (xs.map (fun y => (x, y))) ++ pairCombos xs

/-- Line 183: the global gene-pair universe
`[';'.join(sorted(item)) for item in combinations(selected_genes, 2)]`. -/
def genePairLabels (gs : List String) : List String :=
  (pairCombos gs).map (fun p => canonPair p.1 p.2)

/-- Flatten the strict upper triangle in row-major order
(`m[np.triu_indices_from(m, 1)]`), which matches the combination order of
the gene-pair universe.  The subsequent pandas reindex `.loc[pairs]` onto
the identical (duplicate-free) index it was built with is the identity and
is therefore not represented separately. -/
noncomputable def flattenUpper (m : List (List Flt)) : List Flt :=
  (pairCombos (List.range m.length)).map (fun ij => getM m ij.1 ij.2)

/-- `pd.Series.unique`: the distinct values in first-encounter order. -/
def uniqueInOrder : List String → List String
  | [] => []
  | x :: xs => x :: uniqueInOrder (xs.filter (fun y => decide (y ≠ x)))
termination_by l => l.length
decreasing_by
  simp only [List.length_cons]
  exact Nat.lt_succ_of_le (List.length_filter_le _ xs)

/-- The rows of the (gene-filtered) data belonging to one individual:
`data_selected_df.loc[data_sc.obs[individual_colname] == ind_id]`. -/
def sliceOf (labels : List String) (dataSel : List (List (Option ℚ)))
    (ind : String) : List (List (Option ℚ)) :=
  ((labels.zip dataSel).filter (fun c => decide (c.1 = ind))).map Prod.snd

/-- The cell count of one individual:
`data_sc.obs[data_sc.obs[individual_colname] == ind_id].shape[0]`. -/
def countOf (labels : List String) (ind : String) : ℕ :=
  labels.countP (fun x => decide (x = ind))

/-- The per-individual loop of `get_individual_networks_halfratioGenes`,
lines 190-211, as a recursion over the unique individual labels.  The
accumulating tables are the column lists (label, column) in encounter
order; `excluded` records the low-cell-count individuals that the script
prints ("Deleted this individual because of low cell number").  The
`transform` parameter stands for the call to `corr_to_z` inside `try:`;
an `Except.error` is a raised exception, whose handler `except: continue`
skips only the two z-column insertions.  A scalar result from
`spearmanr_withnan` would make `np.triu_indices_from` raise outside any
`try:`, and an exception raised inside `spearmanr_withnan` itself (zero or
one variable) likewise aborts the run: both are modelled as `none`. -/
noncomputable def netLoop (f : ℝ → ℝ)
    (transform : List Flt → ℕ → Except Unit (List Flt × List Flt))
    (labels : List String) (dataSel : List (List (Option ℚ))) :
    List String →
    Option (List (String × List Flt) × List (String × List Flt) ×
      List (String × List Flt) × List (String × List Flt) ×
      List (String × ℕ))
  | [] => some ([], [], [], [], [])
  | ind :: rest =>
    let cellNum := countOf labels ind
    if 10 < cellNum then
      match spearmanr_withnan f (sliceOf labels dataSel ind) with
      | none => none
      | some (.scalar _ _) => none
      | some (.mat rs prob) =>
        let coefs := flattenUpper rs
        let coefPs := flattenUpper prob
        match netLoop f transform labels dataSel rest with
        | none => none
        | some (cs, cps, zs, zps, ex) =>
          match transform coefs cellNum with
          | .ok (zv, zpv) =>
            some ((ind, coefs) :: cs, (ind, coefPs) :: cps,
              (ind, zv) :: zs, (ind, zpv) :: zps, ex)
          | .error _ =>
            some ((ind, coefs) :: cs, (ind, coefPs) :: cps, zs, zps, ex)
    else
      match netLoop f transform labels dataSel rest with
      | none => none
      | some (cs, cps, zs, zps, ex) =>
        some (cs, cps, zs, zps, (ind, cellNum) :: ex)

/-- The four output tables of `get_individual_networks_halfratioGenes`: each
pandas DataFrame is built with `index=selected_genes_sorted_genepairs` (lines
184-187) and column assignment never changes an index, so each table keeps
its own copy of the gene-pair universe. -/
structure Nets where
  coefIndex : List String
  coefPIndex : List String
  zIndex : List String
  zPIndex : List String
  coefCols : List (String × List Flt)
  coefPCols : List (String × List Flt)
  zCols : List (String × List Flt)
  zPCols : List (String × List Flt)
  excluded : List (String × ℕ)

/-- `get_individual_networks_halfratioGenes(data_sc, individual_colname)`,
lines 176-212: filter genes at the fixed 0.5 threshold, build the gene-pair
universe, slice the filtered matrix per individual (column selection by the
filtered gene names is represented by the filtered column indices, gene
names being distinct), and run the per-individual loop. -/
noncomputable def get_individual_networks_halfratioGenes (f : ℝ → ℝ)
    (transform : List Flt → ℕ → Except Unit (List Flt × List Flt))
    (labels : List String) (rows : List (List (Option ℚ)))
    (genes : List String) : Option Nets :=
  let selIdx := selectGeneIdx rows genes.length (1/2)
  let selected := selIdx.map (fun j => genes.getD j "")
  let pairLabels := genePairLabels selected
  let dataSel := rows.map (fun row => selIdx.map (fun j => row.getD j none))
  match netLoop f transform labels dataSel (uniqueInOrder labels) with
  | none => none
  | some (cs, cps, zs, zps, ex) =>
    some ⟨pairLabels, pairLabels, pairLabels, pairLabels, cs, cps, zs, zps, ex⟩

/-- The builder instantiated with the actual `corr_to_z` transform (which, as
a total function, raises no exception). -/
noncomputable def buildWithZ (f g : ℝ → ℝ) (labels : List String)
    (rows : List (List (Option ℚ))) (genes : List String) : Option Nets :=
  get_individual_networks_halfratioGenes f
    (fun cs n => Except.ok (corr_to_z f g cs n)) labels rows genes

/-- Column names of the coefficient table of a (possibly failed) run. -/
def coefColNames (o : Option Nets) : List String :=
  (o.map (fun n => n.coefCols.map Prod.fst)).getD []

/-- Column names of the coefficient-p table. -/
def coefPColNames (o : Option Nets) : List String :=
  (o.map (fun n => n.coefPCols.map Prod.fst)).getD []

/-- Column names of the z-score table. -/
def zColNames (o : Option Nets) : List String :=
  (o.map (fun n => n.zCols.map Prod.fst)).getD []

/-- Column names of the z-p table. -/
def zPColNames (o : Option Nets) : List String :=
  (o.map (fun n => n.zPCols.map Prod.fst)).getD []

/-- Excluded-individuals log of a run. -/
def excludedLog (o : Option Nets) : List (String × ℕ) :=
  (o.map (fun n => n.excluded)).getD []

/-- Modelled from the spec and scipy documentation: a stand-in for the
external `scipy.stats.t.cdf(·, dof)` at finite arguments.  Only the
qualitative properties shared by every Student t CDF are relied on and are
proved below: it is strictly increasing, maps 0 to 1/2 (symmetry of the t
density), and takes values in `(0, 1)`. -/
noncomputable def tcdfModel : ℝ → ℝ := fun x => 1/2 + x / (2 * (1 + |x|))

/-- Modelled from the spec and scipy documentation: a stand-in for the
external `scipy.stats.norm.ppf` on `(0, 1)`.  Only the qualitative
properties shared with the true probit are relied on: strictly increasing
and zero at 1/2. -/
noncomputable def gModel : ℝ → ℝ := fun p => 2 * p - 1

/-- Concrete observation matrix for exercising the NaN-masking path: three
variables A, B, C over four observations, where only C (column 2) contains a
missing value.  Columns: A = 1,2,3,4; B = 2,1,4,3; C = 2,1,4,NaN. -/
def aC1 : List (List (Option ℚ)) :=
  [[some 1, some 2, some 2], [some 2, some 1, some 1],
   [some 3, some 4, some 4], [some 4, some 3, none]]

/-- Concrete labels for the builder: 11 cells of individual X followed by 10
cells of individual Y. -/
def labelsW : List String := List.replicate 11 "X" ++ List.replicate 10 "Y"

/-- Concrete expression rows matching `labelsW`: 21 cells, 3 genes, every
entry non-zero. -/
def rowsW : List (List (Option ℚ)) := List.replicate 21 [some 1, some 1, some 1]

/-- Concrete gene names for the builder input. -/
def genesW : List String := ["G1", "G2", "G3"]

/-- Concrete labels for the transform-failure scenario: one individual with
11 cells. -/
def labelsC4 : List String := List.replicate 11 "X"

/-- Concrete gene-filtered data matching `labelsC4`. -/
def rowsC4 : List (List (Option ℚ)) := List.replicate 11 [some 1, some 2, some 3]

/-!  ## Theorems -/

/-- Adding an exact float zero on the left is the identity. -/
theorem addF_fin_zero_left (x : Flt) : addF (.fin 0) x = x := by
  cases x <;> simp [addF]

/-- Adding an exact float zero on the right is the identity. -/
theorem addF_fin_zero_right (x : Flt) : addF x (.fin 0) = x := by
  cases x <;> simp [addF]

/-- C8: gene-pair canonicalization is order-independent — for distinct gene
names the label `';'.join(sorted((a, b)))` of line 183 is the same for both
argument orders. -/
theorem genepair_canonical_symm (a b : String) (h : a ≠ b) :
    canonPair a b = canonPair b a := by
  unfold canonPair
  rcases lt_trichotomy a b with hab | hab | hab
  · rw [if_neg (asymm hab), if_pos hab]
  · exact absurd hab h
  · rw [if_pos hab, if_neg (asymm hab)]

/-- Witness for C8 at concrete distinct gene names. -/
theorem genepair_canonical_symm_witness :
    canonPair "GENEA" "GENEB" = canonPair "GENEB" "GENEA" :=
  genepair_canonical_symm "GENEA" "GENEB" (by decide)

/-- Counterexample for C2: the claim says the two t-statistic formulas agree
on every input including `|coef| >= 1`, but `corr_to_z` does not clip the
radicand — at `coef = 3/2` (a coefficient fractionally exceeding 1) and
`n = 10` it takes the square root of a negative number and returns NaN,
while the engine formula of `spearmanr_withnan` clips and returns 0. -/
theorem corr_to_z_unclipped_counterexample :
    tStatCtz (.fin (3/2)) 10 = Flt.nan ∧ tStatEngine (.fin (3/2)) 10 = Flt.fin 0 ∧
    tStatCtz (.fin (3/2)) 10 ≠ tStatEngine (.fin (3/2)) 10 := by
  have hsub : subF (Flt.fin 1) (sqF (Flt.fin (3/2))) = Flt.fin (-(5/4) : ℝ) := by
    simp only [subF, sqF, negF, addF, Flt.fin.injEq]
    norm_num
  have hmul : mulF (addF (Flt.fin (3/2)) (Flt.fin 1)) (subF (Flt.fin 1) (Flt.fin (3/2))) =
      Flt.fin (-(5/4) : ℝ) := by
    simp only [mulF, addF, subF, negF, Flt.fin.injEq]
    norm_num
  have hdiv : divF (Flt.fin ((10:ℕ) - 2 : ℝ)) (Flt.fin (-(5/4) : ℝ)) =
      Flt.fin (-(32/5) : ℝ) := by
    rw [divF.eq_def]
    norm_num
  have hA : tStatCtz (.fin (3/2)) 10 = Flt.nan := by
    rw [tStatCtz, hsub, hdiv]
    rw [show sqrtF (Flt.fin (-(32/5) : ℝ)) = Flt.nan from by
      rw [sqrtF.eq_def]; norm_num]
    rfl
  have hB : tStatEngine (.fin (3/2)) 10 = Flt.fin 0 := by
    rw [tStatEngine, hmul, hdiv]
    rw [show clip0F (Flt.fin (-(32/5) : ℝ)) = Flt.fin 0 from by
      rw [clip0F.eq_def, Flt.fin.injEq]
      exact max_eq_right (by norm_num)]
    rw [show sqrtF (Flt.fin (0:ℝ)) = Flt.fin 0 from by
      rw [sqrtF.eq_def]
      simp [Real.sqrt_zero]]
    simp [mulF]
  refine ⟨hA, hB, ?_⟩
  rw [hA, hB]
  intro h
  exact Flt.noConfusion h

/-- C2 amended: the two t-statistic formulas agree for every coefficient with
`|coef| ≤ 1` and every sample size `n ≥ 2`; the `(1 - coef²)` radicand of
`corr_to_z` equals the engine's `(1+coef)(1-coef)` radicand there and the
clip is the identity on it. -/
theorem corr_to_z_tstat_agrees_engine (c : ℝ) (n : ℕ) (hc : |c| ≤ 1) (hn : 2 ≤ n) :
    tStatCtz (.fin c) n = tStatEngine (.fin c) n := by
  unfold tStatCtz tStatEngine
  have hA : subF (Flt.fin 1) (sqF (Flt.fin c)) = Flt.fin (1 - c^2) := by
    simp only [subF, sqF, negF, addF, Flt.fin.injEq]
    ring
  have hB : mulF (addF (Flt.fin c) (Flt.fin 1)) (subF (Flt.fin 1) (Flt.fin c)) =
      Flt.fin (1 - c^2) := by
    simp only [mulF, addF, subF, negF, Flt.fin.injEq]
    ring
  rw [hA, hB]
  have hd0 : (0:ℝ) ≤ (n:ℝ) - 2 := by
    have h2 : (2:ℝ) ≤ (n:ℝ) := by exact_mod_cast hn
    linarith
  rcases eq_or_ne (1 - c^2) 0 with h0 | h0
  · rw [h0]
    rcases eq_or_lt_of_le hd0 with hdeq | hdpos
    · rw [show divF (Flt.fin ((n:ℝ) - 2)) (Flt.fin 0) = Flt.nan from by
        rw [divF.eq_def]; simp [← hdeq]]
      simp [sqrtF, clip0F, mulF]
    · rw [show divF (Flt.fin ((n:ℝ) - 2)) (Flt.fin 0) = Flt.inf from by
        rw [divF.eq_def]; simp [hdpos, ne_of_gt hdpos]]
      rfl
  · have hc2 : c^2 ≤ 1 := by
      have := abs_le.mp hc
      nlinarith
    have hApos : 0 < 1 - c^2 := lt_of_le_of_ne (by linarith) (Ne.symm h0)
    rw [show divF (Flt.fin ((n:ℝ) - 2)) (Flt.fin (1 - c^2)) =
        Flt.fin (((n:ℝ) - 2) / (1 - c^2)) from by rw [divF.eq_def]; simp [h0]]
    have hq : 0 ≤ ((n:ℝ) - 2) / (1 - c^2) := div_nonneg hd0 (le_of_lt hApos)
    rw [show clip0F (Flt.fin (((n:ℝ) - 2) / (1 - c^2))) =
        Flt.fin (((n:ℝ) - 2) / (1 - c^2)) from by
      rw [clip0F.eq_def, Flt.fin.injEq]
      exact max_eq_left hq]

/-- Witness for the amended C2 at `coef = 0`, `n = 5`. -/
theorem corr_to_z_tstat_agrees_engine_witness :
    tStatCtz (.fin 0) 5 = tStatEngine (.fin 0) 5 :=
  corr_to_z_tstat_agrees_engine 0 5 (by norm_num) (by norm_num)

/-- At a zero coefficient the t statistic of `corr_to_z` is exactly 0. -/
theorem tStatCtz_zero (num : ℕ) (h2 : 2 < num) : tStatCtz (.fin 0) num = Flt.fin 0 := by
  unfold tStatCtz
  rw [show subF (Flt.fin 1) (sqF (Flt.fin (0:ℝ))) = Flt.fin 1 from by
    simp only [subF, sqF, negF, addF, Flt.fin.injEq]; norm_num]
  rw [show divF (Flt.fin ((num:ℝ) - 2)) (Flt.fin 1) = Flt.fin ((num:ℝ) - 2) from by
    rw [divF.eq_def]; norm_num]
  have hd : (0:ℝ) ≤ (num:ℝ) - 2 := by
    have : (2:ℝ) < (num:ℝ) := by exact_mod_cast h2
    linarith
  rw [show sqrtF (Flt.fin ((num:ℝ) - 2)) = Flt.fin (Real.sqrt ((num:ℝ) - 2)) from by
    rw [sqrtF.eq_def]; simp [not_lt.mpr hd]]
  simp [mulF]

/-- Counterexample for C3: at a coefficient of exactly 0 (attainable for
Spearman correlations) neither masking condition `coef < 0` nor `coef > 0`
fires, `prob = CDF_t(0) = 1/2`, and BOTH `positive_coef_probs` and
`negative_coef_probs` are the non-zero value 1/2; the summed "signed
probability" is 1 and equals neither of them. -/
theorem sign_prob_exclusivity_counterexample :
    posProbCtz tcdfModel (.fin 0) 13 ≠ Flt.fin 0 ∧
    negProbCtz tcdfModel (.fin 0) 13 ≠ Flt.fin 0 ∧
    probsCtz tcdfModel (.fin 0) 13 ≠ posProbCtz tcdfModel (.fin 0) 13 ∧
    probsCtz tcdfModel (.fin 0) 13 ≠ negProbCtz tcdfModel (.fin 0) 13 := by
  have hprob : probCtz tcdfModel (.fin 0) 13 = Flt.fin (1/2) := by
    unfold probCtz
    rw [tStatCtz_zero 13 (by norm_num)]
    rw [show tcdfF tcdfModel (Flt.fin 0) = Flt.fin (tcdfModel 0) from rfl]
    unfold tcdfModel
    norm_num
  have hpos : posProbCtz tcdfModel (.fin 0) 13 = Flt.fin (1/2) := by
    unfold posProbCtz
    rw [show ltZeroF (Flt.fin (0:ℝ)) = false from by simp [ltZeroF]]
    rw [if_neg (by simp), hprob]
    simp only [subF, negF, addF, Flt.fin.injEq]
    norm_num
  have hneg : negProbCtz tcdfModel (.fin 0) 13 = Flt.fin (1/2) := by
    unfold negProbCtz
    rw [if_neg (by simp [gtZeroF]), hprob]
  have hsum : probsCtz tcdfModel (.fin 0) 13 = Flt.fin 1 := by
    unfold probsCtz
    rw [hpos, hneg]
    simp only [addF, Flt.fin.injEq]
    norm_num
  refine ⟨?_, ?_, ?_, ?_⟩
  · rw [hpos]; simp only [ne_eq, Flt.fin.injEq]; norm_num
  · rw [hneg]; simp only [ne_eq, Flt.fin.injEq]; norm_num
  · rw [hsum, hpos]; simp only [ne_eq, Flt.fin.injEq]; norm_num
  · rw [hsum, hneg]; simp only [ne_eq, Flt.fin.injEq]; norm_num

/-- C3 amended: for every element of the coefficient array that is a number
other than 0 (NaN and exactly-zero coefficients are the exceptions the
counterexample forces out), at most one of `positive_coef_probs` and
`negative_coef_probs` is non-zero, the returned signed probability is their
sum, and it equals the branch selected by the coefficient's sign. -/
theorem sign_prob_exclusive_nonzero (f : ℝ → ℝ) (c : ℝ) (num : ℕ) (hc : c ≠ 0) :
    (posProbCtz f (.fin c) num = Flt.fin 0 ∨ negProbCtz f (.fin c) num = Flt.fin 0) ∧
    probsCtz f (.fin c) num =
      addF (negProbCtz f (.fin c) num) (posProbCtz f (.fin c) num) ∧
    (0 < c → negProbCtz f (.fin c) num = Flt.fin 0 ∧
      probsCtz f (.fin c) num = posProbCtz f (.fin c) num) ∧
    (c < 0 → posProbCtz f (.fin c) num = Flt.fin 0 ∧
      probsCtz f (.fin c) num = negProbCtz f (.fin c) num) := by
  rcases lt_trichotomy c 0 with hneg | hzero | hpos
  · have hp : posProbCtz f (.fin c) num = Flt.fin 0 := by
      unfold posProbCtz
      rw [if_pos (by simp [ltZeroF, hneg])]
    refine ⟨Or.inl hp, rfl, fun h => absurd h (not_lt.mpr (le_of_lt hneg)), fun _ => ⟨hp, ?_⟩⟩
    unfold probsCtz
    rw [hp, addF_fin_zero_right]
  · exact absurd hzero hc
  · have hn : negProbCtz f (.fin c) num = Flt.fin 0 := by
      unfold negProbCtz
      rw [if_pos (by simp [gtZeroF, hpos])]
    refine ⟨Or.inr hn, rfl, fun _ => ⟨hn, ?_⟩, fun h => absurd h (not_lt.mpr (le_of_lt hpos))⟩
    unfold probsCtz
    rw [hn, addF_fin_zero_left]

/-- Witness for the amended C3 at `coef = 1`, `n = 13`. -/
theorem sign_prob_exclusive_nonzero_witness :
    (posProbCtz tcdfModel (.fin 1) 13 = Flt.fin 0 ∨
      negProbCtz tcdfModel (.fin 1) 13 = Flt.fin 0) ∧
    probsCtz tcdfModel (.fin 1) 13 =
      addF (negProbCtz tcdfModel (.fin 1) 13) (posProbCtz tcdfModel (.fin 1) 13) ∧
    ((0:ℝ) < 1 → negProbCtz tcdfModel (.fin 1) 13 = Flt.fin 0 ∧
      probsCtz tcdfModel (.fin 1) 13 = posProbCtz tcdfModel (.fin 1) 13) ∧
    ((1:ℝ) < 0 → posProbCtz tcdfModel (.fin 1) 13 = Flt.fin 0 ∧
      probsCtz tcdfModel (.fin 1) 13 = negProbCtz tcdfModel (.fin 1) 13) :=
  sign_prob_exclusive_nonzero tcdfModel 1 13 one_ne_zero

/-- C7: the edge contracts of `spearmanr_withnan` — fewer than 2 observations
gives the scalar NaN pair; missing values with at most 2 variables give the
scalar NaN pair; and with exactly 2 variables the result is always a scalar
pair rather than a 2-by-2 matrix. -/
theorem spearman_edge_cases (f : ℝ → ℝ) (a : List (List (Option ℚ))) :
    (a.length ≤ 1 → spearmanr_withnan f a = some (.scalar .nan .nan)) ∧
    (hasNanOf a = true → nVarsOf a ≤ 2 →
      spearmanr_withnan f a = some (.scalar .nan .nan)) ∧
    (nVarsOf a = 2 → resIsScalar (spearmanr_withnan f a) = true) := by
  refine ⟨fun h1 => ?_, fun hnan hv => ?_, fun hv => ?_⟩
  · unfold spearmanr_withnan
    rw [if_pos h1]
  · unfold spearmanr_withnan
    by_cases h1 : a.length ≤ 1
    · rw [if_pos h1]
    · rw [if_neg h1, if_pos ⟨hnan, hv⟩]
  · unfold spearmanr_withnan
    by_cases h1 : a.length ≤ 1
    · rw [if_pos h1]; rfl
    · rw [if_neg h1]
      by_cases h2 : hasNanOf a = true ∧ nVarsOf a ≤ 2
      · rw [if_pos h2]; rfl
      · rw [if_neg h2, if_neg (by omega)]
        simp only [hv, if_pos]
        rfl

/-- Witness for C7 at concrete matrices: a single observation; a NaN with
two variables; and a clean 2-variable matrix. -/
theorem spearman_edge_cases_witness :
    spearmanr_withnan (fun x => x) [[some 1, some 2]] = some (.scalar .nan .nan) ∧
    spearmanr_withnan (fun x => x) [[some 1, none], [some 2, some 3]] =
      some (.scalar .nan .nan) ∧
    resIsScalar (spearmanr_withnan (fun x => x)
      [[some 1, some 2], [some 2, some 1]]) = true :=
  ⟨(spearman_edge_cases (fun x => x) [[some 1, some 2]]).1 (by decide),
   (spearman_edge_cases (fun x => x) [[some 1, none], [some 2, some 3]]).2.1
     (by decide) (by decide),
   (spearman_edge_cases (fun x => x) [[some 1, some 2], [some 2, some 1]]).2.2
     (by decide)⟩

/-- The p-value entry built from a finite (non-NaN) correlation value is
always finite when `n_obs > 2`: either the radicand's denominator is
non-zero and everything stays finite, or the correlation is exactly plus or
minus 1, the t statistic is a signed infinity and `2 * t.sf(inf) = 0`. -/
theorem tStat_prob_isFin (f : ℝ → ℝ) (v : ℝ) (num : ℕ) (h2 : 2 < num) :
    (mulF (.fin 2) (tsfF f (absF (tStatEngine (.fin v) num)))).isFin = true := by
  unfold tStatEngine
  have hB : mulF (addF (Flt.fin v) (Flt.fin 1)) (subF (Flt.fin 1) (Flt.fin v)) =
      Flt.fin ((v + 1) * (1 - v)) := by
    simp only [mulF, addF, subF, negF, Flt.fin.injEq]
    ring
  rw [hB]
  have hd : (0:ℝ) < (num:ℝ) - 2 := by
    have : (2:ℝ) < (num:ℝ) := by exact_mod_cast h2
    linarith
  rcases eq_or_ne ((v + 1) * (1 - v)) 0 with h0 | h0
  · have hv : v ≠ 0 := by
      intro h
      rw [h] at h0
      norm_num at h0
    rw [h0]
    rw [show divF (Flt.fin ((num:ℝ) - 2)) (Flt.fin 0) = Flt.inf from by
      rw [divF.eq_def]; simp [ne_of_gt hd, hd]]
    rcases lt_or_gt_of_ne hv with hneg | hpos
    · rw [show clip0F Flt.inf = Flt.inf from rfl,
        show sqrtF Flt.inf = Flt.inf from rfl,
        show mulF (Flt.fin v) Flt.inf = Flt.ninf from by
          rw [mulF.eq_def]; simp [hv, not_lt.mpr (le_of_lt hneg)]]
      rfl
    · rw [show clip0F Flt.inf = Flt.inf from rfl,
        show sqrtF Flt.inf = Flt.inf from rfl,
        show mulF (Flt.fin v) Flt.inf = Flt.inf from by
          rw [mulF.eq_def]; simp [hv, hpos]]
      rfl
  · rw [show divF (Flt.fin ((num:ℝ) - 2)) (Flt.fin ((v + 1) * (1 - v))) =
        Flt.fin (((num:ℝ) - 2) / ((v + 1) * (1 - v))) from by
      rw [divF.eq_def]; simp [h0]]
    rw [show clip0F (Flt.fin (((num:ℝ) - 2) / ((v + 1) * (1 - v)))) =
        Flt.fin (max (((num:ℝ) - 2) / ((v + 1) * (1 - v))) 0) from rfl]
    rw [show sqrtF (Flt.fin (max (((num:ℝ) - 2) / ((v + 1) * (1 - v))) 0)) =
        Flt.fin (Real.sqrt (max (((num:ℝ) - 2) / ((v + 1) * (1 - v))) 0)) from by
      rw [sqrtF.eq_def]; simp [not_lt.mpr (le_max_right _ (0:ℝ))]]
    rfl

/-- As above, stated for a `corrEntry` whose two rank columns both have
non-zero variance. -/
theorem corr_prob_isFin (f : ℝ → ℝ) (x y : List ℚ) (num : ℕ) (h2 : 2 < num)
    (hx : varQ x ≠ 0) (hy : varQ y ≠ 0) :
    (mulF (.fin 2) (tsfF f (absF (tStatEngine (corrEntry x y) num)))).isFin = true := by
  rw [corrEntry, if_neg (by push_neg; exact ⟨hx, hy⟩)]
  exact tStat_prob_isFin f _ num h2

/-- C1 (code bug): at the three-variable input `aC1` where only variable C
(column 2) has a missing value, the returned correlation matrix has NaN at
the pair (A, B) — the pair the claim says is computed normally — because
`variable_has_nan` holds the integer NaN counts `[0, 0, 1]` and integer
fancy indexing NaN-s rows/columns 0 and 1 instead of 2; and the returned
p-value matrix entry for the pair (A, C) is finite, although the claim says
every pair involving C is NaN, because the p-value matrix is never masked. -/
theorem spearman_nan_mask_bug (f : ℝ → ℝ) :
    resIsMat (spearmanr_withnan f aC1) = true ∧
    getM (resRs (spearmanr_withnan f aC1)) 0 1 = Flt.nan ∧
    (getM (resProb (spearmanr_withnan f aC1)) 0 2).isFin = true := by
  refine ⟨rfl, rfl, ?_⟩
  have hshow : getM (resProb (spearmanr_withnan f aC1)) 0 2 =
      mulF (.fin 2) (tsfF f (absF (tStatEngine
        (corrEntry (colRanks aC1 0) (colRanks aC1 2)) aC1.length))) := rfl
  rw [hshow]
  have hr : List.range 4 = [0, 1, 2, 3] := by decide
  have hranks0 : colRanks aC1 0 = [1, 2, 3, 4] := by
    norm_num [colRanks, rankdata, colOf, aC1, hr, List.countP_cons,
      List.countP_nil, List.filterMap_cons]
  have hranks2 : colRanks aC1 2 = [2, 1, 3, 4] := by
    norm_num [colRanks, rankdata, colOf, aC1, hr, List.countP_cons,
      List.countP_nil, List.filterMap_cons]
  refine corr_prob_isFin f _ _ _ (by decide) ?_ ?_
  · rw [hranks0]
    norm_num [varQ, covQ, meanQ, List.zip_cons_cons]
  · rw [hranks2]
    norm_num [varQ, covQ, meanQ, List.zip_cons_cons]

/-- The saturation map `x / (1 + |x|)` is strictly increasing. -/
theorem saturationStrictMono : StrictMono (fun x : ℝ => x / (1 + |x|)) := by
  intro a b hab
  have ha : (0:ℝ) < 1 + |a| := by positivity
  have hb : (0:ℝ) < 1 + |b| := by positivity
  simp only
  rw [div_lt_div_iff₀ ha hb]
  rcases le_or_lt 0 a with h0a | h0a
  · have h0b : 0 < b := lt_of_le_of_lt h0a hab
    rw [abs_of_nonneg h0a, abs_of_pos h0b]
    nlinarith
  · rcases le_or_lt 0 b with h0b | h0b
    · have hL : a * (1 + |b|) < 0 := mul_neg_of_neg_of_pos h0a hb
      have hR : 0 ≤ b * (1 + |a|) := mul_nonneg h0b (le_of_lt ha)
      linarith
    · rw [abs_of_neg h0a, abs_of_neg h0b]
      nlinarith

/-- The model t CDF is strictly increasing, like every Student t CDF. -/
theorem tcdfModel_strictMono : StrictMono tcdfModel := by
  intro a b hab
  have h := saturationStrictMono hab
  simp only at h
  have ha : (0:ℝ) < 1 + |a| := by positivity
  have hb : (0:ℝ) < 1 + |b| := by positivity
  have h2a : a / (2 * (1 + |a|)) = (1/2) * (a / (1 + |a|)) := by
    field_simp
  have h2b : b / (2 * (1 + |b|)) = (1/2) * (b / (1 + |b|)) := by
    field_simp
  simp only [tcdfModel]
  rw [h2a, h2b]
  linarith

/-- The model t CDF takes values strictly between 0 and 1. -/
theorem tcdfModel_mem (x : ℝ) : 0 < tcdfModel x ∧ tcdfModel x < 1 := by
  have hx : (0:ℝ) < 1 + |x| := by positivity
  have h2 : |x / (2 * (1 + |x|))| < 1/2 := by
    rw [abs_div, abs_of_pos (by positivity : (0:ℝ) < 2 * (1 + |x|)),
      div_lt_iff₀ (by positivity : (0:ℝ) < 2 * (1 + |x|))]
    linarith [abs_nonneg x]
  have h3 := abs_lt.mp h2
  unfold tcdfModel
  constructor <;> linarith [h3.1, h3.2]

/-- The model probit is strictly increasing. -/
theorem gModel_strictMono : StrictMono gModel := by
  intro a b hab
  simp only [gModel]
  linarith

/-- C10: for any CDF stand-ins with the qualitative properties of the true
`t.cdf` (strictly increasing, 1/2 at 0, values in `(0,1)`) and `norm.ppf`
(strictly increasing, 0 at 1/2), the z-score of `corr_to_z` at a coefficient
with `0 < |coef| < 1` and sample size `n > 2` is finite and carries the sign
of the coefficient. -/
theorem zscore_sign_consistent (f g : ℝ → ℝ) (hf : StrictMono f)
    (hf0 : f 0 = 1/2) (hfr : ∀ x, 0 < f x ∧ f x < 1)
    (hg : StrictMono g) (hg0 : g (1/2) = 0)
    (c : ℝ) (n : ℕ) (hn : 2 < n) (hc0 : c ≠ 0) (hc1 : |c| < 1) :
    (zScoreCtz f g (.fin c) n).isFin = true ∧
    (gtZeroF (zScoreCtz f g (.fin c) n) = true ↔ 0 < c) ∧
    (ltZeroF (zScoreCtz f g (.fin c) n) = true ↔ c < 0) := by
  have hc2 : c^2 < 1 := by
    have := abs_lt.mp hc1
    nlinarith
  have hA : (0:ℝ) < 1 - c^2 := by linarith
  have hd : (0:ℝ) < (n:ℝ) - 2 := by
    have : (2:ℝ) < (n:ℝ) := by exact_mod_cast hn
    linarith
  have hq : 0 < ((n:ℝ) - 2) / (1 - c^2) := div_pos hd hA
  have ht : tStatCtz (.fin c) n =
      Flt.fin (c * Real.sqrt (((n:ℝ) - 2) / (1 - c^2))) := by
    unfold tStatCtz
    rw [show subF (Flt.fin 1) (sqF (Flt.fin c)) = Flt.fin (1 - c^2) from by
      simp only [subF, sqF, negF, addF, Flt.fin.injEq]; ring]
    rw [show divF (Flt.fin ((n:ℝ) - 2)) (Flt.fin (1 - c^2)) =
        Flt.fin (((n:ℝ) - 2) / (1 - c^2)) from by
      rw [divF.eq_def]; simp [ne_of_gt hA]]
    rw [show sqrtF (Flt.fin (((n:ℝ) - 2) / (1 - c^2))) =
        Flt.fin (Real.sqrt (((n:ℝ) - 2) / (1 - c^2))) from by
      rw [sqrtF.eq_def]; simp [not_lt.mpr (le_of_lt hq)]]
    rfl
  have hspos : 0 < Real.sqrt (((n:ℝ) - 2) / (1 - c^2)) := Real.sqrt_pos.mpr hq
  have hprob : probCtz f (.fin c) n =
      Flt.fin (f (c * Real.sqrt (((n:ℝ) - 2) / (1 - c^2)))) := by
    unfold probCtz
    rw [ht]
    rfl
  have hfp := hfr (c * Real.sqrt (((n:ℝ) - 2) / (1 - c^2)))
  have hz : zScoreCtz f g (.fin c) n =
      Flt.fin (g (f (c * Real.sqrt (((n:ℝ) - 2) / (1 - c^2))))) := by
    unfold zScoreCtz
    rw [hprob, nppfF.eq_def]
    simp [not_le.mpr hfp.1, not_le.mpr hfp.2]
  have keyPos : 0 < g (f (c * Real.sqrt (((n:ℝ) - 2) / (1 - c^2)))) ↔ 0 < c := by
    constructor
    · intro hgpos
      by_contra hcle
      push_neg at hcle
      rcases lt_or_eq_of_le hcle with hcneg | hceq
      · have ht0 : c * Real.sqrt (((n:ℝ) - 2) / (1 - c^2)) < 0 :=
          mul_neg_of_neg_of_pos hcneg hspos
        have h1 : f (c * Real.sqrt (((n:ℝ) - 2) / (1 - c^2))) < f 0 := hf ht0
        rw [hf0] at h1
        have h2 : g (f (c * Real.sqrt (((n:ℝ) - 2) / (1 - c^2)))) < g (1/2) :=
          hg (by linarith)
        rw [hg0] at h2
        linarith
      · exact hc0 hceq
    · intro hcpos
      have h1 : f 0 < f (c * Real.sqrt (((n:ℝ) - 2) / (1 - c^2))) :=
        hf (mul_pos hcpos hspos)
      rw [hf0] at h1
      have h2 : g (1/2) < g (f (c * Real.sqrt (((n:ℝ) - 2) / (1 - c^2)))) :=
        hg (by linarith)
      rw [hg0] at h2
      linarith
  have keyNeg : g (f (c * Real.sqrt (((n:ℝ) - 2) / (1 - c^2)))) < 0 ↔ c < 0 := by
    constructor
    · intro hgneg
      by_contra hcge
      push_neg at hcge
      rcases lt_or_eq_of_le hcge with hcpos | hceq
      · have h1 : f 0 < f (c * Real.sqrt (((n:ℝ) - 2) / (1 - c^2))) :=
          hf (mul_pos hcpos hspos)
        rw [hf0] at h1
        have h2 : g (1/2) < g (f (c * Real.sqrt (((n:ℝ) - 2) / (1 - c^2)))) :=
          hg (by linarith)
        rw [hg0] at h2
        linarith
      · exact hc0 hceq.symm
    · intro hcneg
      have ht0 : c * Real.sqrt (((n:ℝ) - 2) / (1 - c^2)) < 0 :=
        mul_neg_of_neg_of_pos hcneg hspos
      have h1 : f (c * Real.sqrt (((n:ℝ) - 2) / (1 - c^2))) < f 0 := hf ht0
      rw [hf0] at h1
      have h2 : g (f (c * Real.sqrt (((n:ℝ) - 2) / (1 - c^2)))) < g (1/2) :=
        hg (by linarith)
      rw [hg0] at h2
      linarith
  refine ⟨by rw [hz]; rfl, ?_, ?_⟩
  · rw [hz]
    simp only [gtZeroF, decide_eq_true_eq]
    exact keyPos
  · rw [hz]
    simp only [ltZeroF, decide_eq_true_eq]
    exact keyNeg

/-- Witness for C10 at the model CDFs, `coef = 1/2`, `n = 3`. -/
theorem zscore_sign_consistent_witness :
    (zScoreCtz tcdfModel gModel (.fin (1/2)) 3).isFin = true ∧
    (gtZeroF (zScoreCtz tcdfModel gModel (.fin (1/2)) 3) = true ↔ (0:ℝ) < 1/2) ∧
    (ltZeroF (zScoreCtz tcdfModel gModel (.fin (1/2)) 3) = true ↔ (1/2:ℝ) < 0) :=
  zscore_sign_consistent tcdfModel gModel tcdfModel_strictMono
    (by norm_num [tcdfModel]) tcdfModel_mem gModel_strictMono
    (by norm_num [gModel]) (1/2) 3 (by norm_num) (by norm_num)
    (by rw [show |(1/2 : ℝ)| = 1/2 from abs_of_pos (by norm_num)]; norm_num)

/-- C6: the four tables returned by `get_individual_networks_halfratioGenes`
carry the identical row index — the gene-pair universe in the same order —
for every input, every transform outcome, and independent of which
individuals were included or excluded. -/
theorem four_tables_share_index (f : ℝ → ℝ)
    (transform : List Flt → ℕ → Except Unit (List Flt × List Flt))
    (labels : List String) (rows : List (List (Option ℚ)))
    (genes : List String) :
    (get_individual_networks_halfratioGenes f transform labels rows genes).map
        Nets.coefIndex =
      (get_individual_networks_halfratioGenes f transform labels rows genes).map
        Nets.coefPIndex ∧
    (get_individual_networks_halfratioGenes f transform labels rows genes).map
        Nets.coefIndex =
      (get_individual_networks_halfratioGenes f transform labels rows genes).map
        Nets.zIndex ∧
    (get_individual_networks_halfratioGenes f transform labels rows genes).map
        Nets.coefIndex =
      (get_individual_networks_halfratioGenes f transform labels rows genes).map
        Nets.zPIndex := by
  simp only [get_individual_networks_halfratioGenes]
  cases hnl : netLoop f transform labels
      (rows.map (fun row =>
        (selectGeneIdx rows genes.length (1/2)).map (fun j => row.getD j none)))
      (uniqueInOrder labels) with
  | none => simp
  | some r =>
    obtain ⟨cs, cps, zs, zps, ex⟩ := r
    simp

/-- C4: if the significance transform raises for an individual whose cell
count passed the threshold, the loop keeps that individual's coefficient and
coefficient-p columns, omits its z-score and z-p columns, and processes the
remaining individuals exactly as it would have otherwise. -/
theorem transform_failure_skips_z (f : ℝ → ℝ)
    (transform : List Flt → ℕ → Except Unit (List Flt × List Flt))
    (labels : List String) (dataSel : List (List (Option ℚ)))
    (ind : String) (rest : List String) (e : Unit)
    (h10 : 10 < countOf labels ind)
    (hmat : resIsMat (spearmanr_withnan f (sliceOf labels dataSel ind)) = true)
    (hfail : transform
      (flattenUpper (resRs (spearmanr_withnan f (sliceOf labels dataSel ind))))
      (countOf labels ind) = Except.error e) :
    netLoop f transform labels dataSel (ind :: rest) =
      (netLoop f transform labels dataSel rest).map (fun r =>
        ((ind, flattenUpper (resRs (spearmanr_withnan f (sliceOf labels dataSel ind)))) :: r.1,
         (ind, flattenUpper (resProb (spearmanr_withnan f (sliceOf labels dataSel ind)))) :: r.2.1,
         r.2.2.1, r.2.2.2.1, r.2.2.2.2)) := by
  cases hsp : spearmanr_withnan f (sliceOf labels dataSel ind) with
  | none =>
    rw [hsp] at hmat
    simp [resIsMat] at hmat
  | some sres =>
    cases sres with
    | scalar c p =>
      rw [hsp] at hmat
      simp [resIsMat] at hmat
    | mat rs prob =>
      rw [hsp] at hfail
      simp only [resRs] at hfail
      simp only [netLoop, hsp, if_pos h10, resRs, resProb]
      cases hnl : netLoop f transform labels dataSel rest with
      | none => simp
      | some r =>
        obtain ⟨cs, cps, zs, zps, ex⟩ := r
        simp [hfail]

/-- Witness for C4: a single 11-cell individual with an always-raising
transform — the coefficient columns are kept, the z columns are not, and
the (empty) remainder is processed as usual. -/
theorem transform_failure_skips_z_witness :
    netLoop (fun x => x) (fun _ _ => Except.error ()) labelsC4 rowsC4 ["X"] =
      (netLoop (fun x => x) (fun _ _ => Except.error ()) labelsC4 rowsC4 []).map
        (fun r =>
          (("X", flattenUpper (resRs
              (spearmanr_withnan (fun x => x) (sliceOf labelsC4 rowsC4 "X")))) :: r.1,
           ("X", flattenUpper (resProb
              (spearmanr_withnan (fun x => x) (sliceOf labelsC4 rowsC4 "X")))) :: r.2.1,
           r.2.2.1, r.2.2.2.1, r.2.2.2.2)) :=
  transform_failure_skips_z (fun x => x) (fun _ _ => Except.error ()) labelsC4
    rowsC4 "X" [] () (by decide) (by rfl) rfl

/-- Membership in `pd.unique` is membership in the original list. -/
theorem uniqueInOrder_mem (x : String) (l : List String) :
    x ∈ uniqueInOrder l ↔ x ∈ l := by
  induction l using uniqueInOrder.induct with
  | case1 => simp [uniqueInOrder]
  | case2 y ys ih =>
    simp only [uniqueInOrder, List.mem_cons]
    rw [ih]
    constructor
    · rintro (h | h)
      · exact Or.inl h
      · exact Or.inr (List.mem_of_mem_filter h)
    · rintro (h | h)
      · exact Or.inl h
      · by_cases hxy : x = y
        · exact Or.inl hxy
        · exact Or.inr (List.mem_filter.mpr ⟨h, by simp [hxy]⟩)

/-- The per-individual slice has exactly the individual's cell count as its
number of observations. -/
theorem sliceOf_length (labels : List String) (dataSel : List (List (Option ℚ)))
    (ind : String) (hlen : labels.length ≤ dataSel.length) :
    (sliceOf labels dataSel ind).length = countOf labels ind := by
  unfold sliceOf countOf
  rw [List.length_map, ← List.countP_eq_length_filter]
  have hfst : (labels.zip dataSel).map Prod.fst = labels :=
    List.map_fst_zip _ _ hlen
  conv_rhs => rw [← hfst]
  rw [List.countP_map]
  rfl

/-- Every row of a per-individual slice is a row of the sliced data. -/
theorem sliceOf_mem (labels : List String) (dataSel : List (List (Option ℚ)))
    (ind : String) (r : List (Option ℚ)) (h : r ∈ sliceOf labels dataSel ind) :
    r ∈ dataSel := by
  unfold sliceOf at h
  obtain ⟨⟨l, d⟩, hm, rfl⟩ := List.mem_map.mp h
  exact (List.of_mem_zip (List.mem_of_mem_filter hm)).2

/-- `spearmanr_withnan` returns the matrix form whenever there are at least 2
observations, more than 2 variables, and no value is missing (with 0, 1 or 2
variables it aborts or returns a scalar instead). -/
theorem spearman_isMat_of (f : ℝ → ℝ) (a : List (List (Option ℚ)))
    (h1 : 1 < a.length) (h2 : 2 < nVarsOf a) (h3 : hasNanOf a = false) :
    resIsMat (spearmanr_withnan f a) = true := by
  simp only [spearmanr_withnan]
  rw [if_neg (by omega)]
  rw [if_neg (by simp [h3])]
  rw [if_neg (by omega)]
  rw [if_neg (by omega)]
  rw [if_neg (by omega)]
  rfl

/-- With the actual (total, never-raising) `corr_to_z` as transform, the loop
succeeds and its five components are fully determined: the four column lists
are indexed by the individuals whose cell count exceeds 10, in encounter
order, and the exclusion log lists the others with their counts. -/
theorem netLoop_ok_char (f g : ℝ → ℝ) (labels : List String)
    (dataSel : List (List (Option ℚ))) (inds : List String)
    (hmat : ∀ ind ∈ inds, 10 < countOf labels ind →
      resIsMat (spearmanr_withnan f (sliceOf labels dataSel ind)) = true) :
    netLoop f (fun cs n => Except.ok (corr_to_z f g cs n)) labels dataSel inds =
      some
        ((inds.filter (fun i => decide (10 < countOf labels i))).map (fun i =>
          (i, flattenUpper (resRs (spearmanr_withnan f (sliceOf labels dataSel i))))),
         (inds.filter (fun i => decide (10 < countOf labels i))).map (fun i =>
          (i, flattenUpper (resProb (spearmanr_withnan f (sliceOf labels dataSel i))))),
         (inds.filter (fun i => decide (10 < countOf labels i))).map (fun i =>
          (i, (corr_to_z f g
            (flattenUpper (resRs (spearmanr_withnan f (sliceOf labels dataSel i))))
            (countOf labels i)).1)),
         (inds.filter (fun i => decide (10 < countOf labels i))).map (fun i =>
          (i, (corr_to_z f g
            (flattenUpper (resRs (spearmanr_withnan f (sliceOf labels dataSel i))))
            (countOf labels i)).2)),
         (inds.filter (fun i => !decide (10 < countOf labels i))).map (fun i =>
          (i, countOf labels i))) := by
  induction inds with
  | nil => simp [netLoop]
  | cons ind rest ih =>
    have hmatRest : ∀ i ∈ rest, 10 < countOf labels i →
        resIsMat (spearmanr_withnan f (sliceOf labels dataSel i)) = true :=
      fun i hi => hmat i (List.mem_cons_of_mem _ hi)
    by_cases h10 : 10 < countOf labels ind
    · cases hsp : spearmanr_withnan f (sliceOf labels dataSel ind) with
      | none =>
        have hm := hmat ind (List.mem_cons_self _ _) h10
        rw [hsp] at hm
        simp [resIsMat] at hm
      | some sres =>
        cases sres with
        | scalar c p =>
          have hm := hmat ind (List.mem_cons_self _ _) h10
          rw [hsp] at hm
          simp [resIsMat] at hm
        | mat rs prob =>
          simp only [netLoop, hsp, if_pos h10]
          rw [ih hmatRest]
          simp [List.filter_cons, h10, hsp, resRs, resProb, corr_to_z]
    · simp only [netLoop, if_neg h10]
      rw [ih hmatRest]
      simp [List.filter_cons, h10]

/-- C5: in a run with the actual `corr_to_z` transform, an individual label
appears as a column of every one of the four output tables exactly when its
cell count strictly exceeds 10, and an excluded individual is written to the
log together with its count.  The hypotheses rule out the inputs on which
the script would crash before returning tables: equal label/row counts,
rows of the declared width, no missing values, and at least 3 filtered
genes — with 0 or 1 filtered genes `spearmanr_withnan` itself raises
(zero-column `np.apply_along_axis` / fancy-indexing its 0-d `np.corrcoef`
result), and with exactly 2 it returns a scalar on which
`np.triu_indices_from` raises. -/
theorem individual_inclusion_iff (f g : ℝ → ℝ) (labels : List String)
    (rows : List (List (Option ℚ))) (genes : List String)
    (hlen : labels.length = rows.length)
    (hwf : ∀ row ∈ rows, row.length = genes.length)
    (hnonan : ∀ row ∈ rows, ∀ v ∈ row, v.isSome = true)
    (hnv : 2 < (selectGeneIdx rows genes.length (1/2)).length)
    (lab : String) (hmem : lab ∈ labels) :
    ((10 < countOf labels lab ↔
        lab ∈ coefColNames (buildWithZ f g labels rows genes)) ∧
     (10 < countOf labels lab ↔
        lab ∈ coefPColNames (buildWithZ f g labels rows genes)) ∧
     (10 < countOf labels lab ↔
        lab ∈ zColNames (buildWithZ f g labels rows genes)) ∧
     (10 < countOf labels lab ↔
        lab ∈ zPColNames (buildWithZ f g labels rows genes))) ∧
    (countOf labels lab ≤ 10 →
      (lab, countOf labels lab) ∈ excludedLog (buildWithZ f g labels rows genes)) := by
  have hdlen : labels.length ≤
      (rows.map (fun row =>
        (selectGeneIdx rows genes.length (1/2)).map (fun j => row.getD j none))).length := by
    rw [List.length_map, hlen]
  have hmat : ∀ ind ∈ uniqueInOrder labels, 10 < countOf labels ind →
      resIsMat (spearmanr_withnan f (sliceOf labels
        (rows.map (fun row =>
          (selectGeneIdx rows genes.length (1/2)).map (fun j => row.getD j none)))
        ind)) = true := by
    intro ind _ h10
    have hslen := sliceOf_length labels
      (rows.map (fun row =>
        (selectGeneIdx rows genes.length (1/2)).map (fun j => row.getD j none)))
      ind hdlen
    apply spearman_isMat_of
    · omega
    · have hne : sliceOf labels
          (rows.map (fun row =>
            (selectGeneIdx rows genes.length (1/2)).map (fun j => row.getD j none)))
          ind ≠ [] := by
        intro hnil
        rw [hnil] at hslen
        simp at hslen
        omega
      obtain ⟨r, rrest, hr⟩ := List.exists_cons_of_ne_nil hne
      have hrmem : r ∈ rows.map (fun row =>
          (selectGeneIdx rows genes.length (1/2)).map (fun j => row.getD j none)) :=
        sliceOf_mem _ _ _ _ (by rw [hr]; exact List.mem_cons_self _ _)
      obtain ⟨row, _, rfl⟩ := List.mem_map.mp hrmem
      rw [hr]
      unfold nVarsOf
      simpa using hnv
    · unfold hasNanOf
      rw [List.any_eq_false]
      intro r hrs
      have hrmem : r ∈ rows.map (fun row =>
          (selectGeneIdx rows genes.length (1/2)).map (fun j => row.getD j none)) :=
        sliceOf_mem _ _ _ _ hrs
      obtain ⟨row, hrow, rfl⟩ := List.mem_map.mp hrmem
      simp only [Bool.not_eq_true, List.any_eq_false]
      intro v hv
      obtain ⟨j, hj, rfl⟩ := List.mem_map.mp hv
      have hjlt : j < genes.length :=
        List.mem_range.mp (List.mem_of_mem_filter hj)
      have hlt : j < row.length := by rw [hwf row hrow]; exact hjlt
      rw [List.getD_eq_getElem row none hlt]
      have hs := hnonan row hrow _ (List.getElem_mem hlt)
      cases h2 : row[j] with
      | none => rw [h2] at hs; simp at hs
      | some q => rfl
  have hchar := netLoop_ok_char f g labels
    (rows.map (fun row =>
      (selectGeneIdx rows genes.length (1/2)).map (fun j => row.getD j none)))
    (uniqueInOrder labels) hmat
  have hbuild : buildWithZ f g labels rows genes = some
      ⟨genePairLabels ((selectGeneIdx rows genes.length (1/2)).map
          (fun j => genes.getD j "")),
       genePairLabels ((selectGeneIdx rows genes.length (1/2)).map
          (fun j => genes.getD j "")),
       genePairLabels ((selectGeneIdx rows genes.length (1/2)).map
          (fun j => genes.getD j "")),
       genePairLabels ((selectGeneIdx rows genes.length (1/2)).map
          (fun j => genes.getD j "")),
       ((uniqueInOrder labels).filter (fun i => decide (10 < countOf labels i))).map
          (fun i => (i, flattenUpper (resRs (spearmanr_withnan f (sliceOf labels
            (rows.map (fun row =>
              (selectGeneIdx rows genes.length (1/2)).map (fun j => row.getD j none)))
            i))))),
       ((uniqueInOrder labels).filter (fun i => decide (10 < countOf labels i))).map
          (fun i => (i, flattenUpper (resProb (spearmanr_withnan f (sliceOf labels
            (rows.map (fun row =>
              (selectGeneIdx rows genes.length (1/2)).map (fun j => row.getD j none)))
            i))))),
       ((uniqueInOrder labels).filter (fun i => decide (10 < countOf labels i))).map
          (fun i => (i, (corr_to_z f g (flattenUpper (resRs (spearmanr_withnan f
            (sliceOf labels (rows.map (fun row =>
              (selectGeneIdx rows genes.length (1/2)).map (fun j => row.getD j none)))
            i)))) (countOf labels i)).1)),
       ((uniqueInOrder labels).filter (fun i => decide (10 < countOf labels i))).map
          (fun i => (i, (corr_to_z f g (flattenUpper (resRs (spearmanr_withnan f
            (sliceOf labels (rows.map (fun row =>
              (selectGeneIdx rows genes.length (1/2)).map (fun j => row.getD j none)))
            i)))) (countOf labels i)).2)),
       ((uniqueInOrder labels).filter (fun i => !decide (10 < countOf labels i))).map
          (fun i => (i, countOf labels i))⟩ := by
    simp only [buildWithZ, get_individual_networks_halfratioGenes, hchar]
  have hmemu : lab ∈ uniqueInOrder labels := (uniqueInOrder_mem lab labels).mpr hmem
  have hcols : ∀ colFn : String → String × List Flt,
      (∀ i, (colFn i).1 = i) →
      (lab ∈ (((uniqueInOrder labels).filter
          (fun i => decide (10 < countOf labels i))).map colFn).map Prod.fst ↔
        10 < countOf labels lab) := by
    intro colFn hfst
    rw [List.map_map]
    constructor
    · intro h
      obtain ⟨i, hi, hlab⟩ := List.mem_map.mp h
      simp only [Function.comp_apply] at hlab
      rw [hfst i] at hlab
      rw [← hlab]
      have := (List.mem_filter.mp hi).2
      simpa using this
    · intro h
      refine List.mem_map.mpr ⟨lab, List.mem_filter.mpr ⟨hmemu, by simpa using h⟩, ?_⟩
      simp only [Function.comp_apply]
      exact hfst lab
  refine ⟨⟨?_, ?_, ?_, ?_⟩, ?_⟩
  · have h1 : coefColNames (buildWithZ f g labels rows genes) =
        (((uniqueInOrder labels).filter (fun i => decide (10 < countOf labels i))).map
          (fun i => (i, flattenUpper (resRs (spearmanr_withnan f (sliceOf labels
            (rows.map (fun row =>
              (selectGeneIdx rows genes.length (1/2)).map (fun j => row.getD j none)))
            i)))))).map Prod.fst := by
      rw [hbuild]
      rfl
    rw [h1]
    exact (hcols _ (fun i => rfl)).symm
  · have h2 : coefPColNames (buildWithZ f g labels rows genes) =
        (((uniqueInOrder labels).filter (fun i => decide (10 < countOf labels i))).map
          (fun i => (i, flattenUpper (resProb (spearmanr_withnan f (sliceOf labels
            (rows.map (fun row =>
              (selectGeneIdx rows genes.length (1/2)).map (fun j => row.getD j none)))
            i)))))).map Prod.fst := by
      rw [hbuild]
      rfl
    rw [h2]
    exact (hcols _ (fun i => rfl)).symm
  · have h3 : zColNames (buildWithZ f g labels rows genes) =
        (((uniqueInOrder labels).filter (fun i => decide (10 < countOf labels i))).map
          (fun i => (i, (corr_to_z f g (flattenUpper (resRs (spearmanr_withnan f
            (sliceOf labels (rows.map (fun row =>
              (selectGeneIdx rows genes.length (1/2)).map (fun j => row.getD j none)))
            i)))) (countOf labels i)).1))).map Prod.fst := by
      rw [hbuild]
      rfl
    rw [h3]
    exact (hcols _ (fun i => rfl)).symm
  · have h4 : zPColNames (buildWithZ f g labels rows genes) =
        (((uniqueInOrder labels).filter (fun i => decide (10 < countOf labels i))).map
          (fun i => (i, (corr_to_z f g (flattenUpper (resRs (spearmanr_withnan f
            (sliceOf labels (rows.map (fun row =>
              (selectGeneIdx rows genes.length (1/2)).map (fun j => row.getD j none)))
            i)))) (countOf labels i)).2))).map Prod.fst := by
      rw [hbuild]
      rfl
    rw [h4]
    exact (hcols _ (fun i => rfl)).symm
  · intro hle
    have h5 : excludedLog (buildWithZ f g labels rows genes) =
        ((uniqueInOrder labels).filter (fun i => !decide (10 < countOf labels i))).map
          (fun i => (i, countOf labels i)) := by
      rw [hbuild]
      rfl
    rw [h5]
    refine List.mem_map.mpr ⟨lab, List.mem_filter.mpr ⟨hmemu, ?_⟩, rfl⟩
    simp only [Bool.not_eq_true', decide_eq_false_iff_not, not_lt]
    omega

/-- Witness for C5: a run with individual X at 11 cells and individual Y at
10 cells.  X (count 11 > 10) appears in all four tables; Y (count 10) is
excluded and logged with its count. -/
theorem individual_inclusion_iff_witness :
    (((10 < countOf labelsW "X" ↔
        "X" ∈ coefColNames (buildWithZ (fun x => x) (fun p => p) labelsW rowsW genesW)) ∧
      (10 < countOf labelsW "X" ↔
        "X" ∈ coefPColNames (buildWithZ (fun x => x) (fun p => p) labelsW rowsW genesW)) ∧
      (10 < countOf labelsW "X" ↔
        "X" ∈ zColNames (buildWithZ (fun x => x) (fun p => p) labelsW rowsW genesW)) ∧
      (10 < countOf labelsW "X" ↔
        "X" ∈ zPColNames (buildWithZ (fun x => x) (fun p => p) labelsW rowsW genesW))) ∧
     (countOf labelsW "X" ≤ 10 →
      ("X", countOf labelsW "X") ∈
        excludedLog (buildWithZ (fun x => x) (fun p => p) labelsW rowsW genesW))) ∧
    (((10 < countOf labelsW "Y" ↔
        "Y" ∈ coefColNames (buildWithZ (fun x => x) (fun p => p) labelsW rowsW genesW)) ∧
      (10 < countOf labelsW "Y" ↔
        "Y" ∈ coefPColNames (buildWithZ (fun x => x) (fun p => p) labelsW rowsW genesW)) ∧
      (10 < countOf labelsW "Y" ↔
        "Y" ∈ zColNames (buildWithZ (fun x => x) (fun p => p) labelsW rowsW genesW)) ∧
      (10 < countOf labelsW "Y" ↔
        "Y" ∈ zPColNames (buildWithZ (fun x => x) (fun p => p) labelsW rowsW genesW))) ∧
     (countOf labelsW "Y" ≤ 10 →
      ("Y", countOf labelsW "Y") ∈
        excludedLog (buildWithZ (fun x => x) (fun p => p) labelsW rowsW genesW))) := by
  have hnv : 2 < (selectGeneIdx rowsW genesW.length (1/2)).length := by
    have h0 : nonzeroFrac rowsW 0 = 1 := by
      unfold nonzeroFrac
      rw [show rowsW.countP (fun row => decide (row.getD 0 (some 0) ≠ some 0)) = 21
        from by decide]
      rw [show rowsW.length = 21 from rfl]
      norm_num
    have h1 : nonzeroFrac rowsW 1 = 1 := by
      unfold nonzeroFrac
      rw [show rowsW.countP (fun row => decide (row.getD 1 (some 0) ≠ some 0)) = 21
        from by decide]
      rw [show rowsW.length = 21 from rfl]
      norm_num
    have h2 : nonzeroFrac rowsW 2 = 1 := by
      unfold nonzeroFrac
      rw [show rowsW.countP (fun row => decide (row.getD 2 (some 0) ≠ some 0)) = 21
        from by decide]
      rw [show rowsW.length = 21 from rfl]
      norm_num
    have hsel : selectGeneIdx rowsW genesW.length (1/2) = [0, 1, 2] := by
      unfold selectGeneIdx
      rw [show genesW.length = 3 from rfl, show List.range 3 = [0, 1, 2] from by decide]
      norm_num [List.filter_cons, h0, h1, h2]
    rw [hsel]
    decide
  exact ⟨individual_inclusion_iff (fun x => x) (fun p => p) labelsW rowsW genesW rfl
      (by decide) (by decide) hnv "X" (by decide),
    individual_inclusion_iff (fun x => x) (fun p => p) labelsW rowsW genesW rfl
      (by decide) (by decide) hnv "Y" (by decide)⟩

/-- C9: `select_gene_nonzeroratio` returns exactly the genes whose non-zero
fraction strictly exceeds `r`, preserving the original column order (the
result is a sublist of the columns); a gene with no non-zero entry is never
selected, and for a non-empty matrix a gene that is non-zero in every cell is
selected at any threshold below 1. -/
theorem gene_filter_spec (rows : List (List (Option ℚ))) (genes : List String)
    (r : ℚ) (h0 : 0 ≤ r) (_h1 : r ≤ 1) (hnd : genes.Nodup) :
    (select_gene_nonzerofrac rows genes r).Sublist genes ∧
    (∀ j (hj : j < genes.length),
      (genes.get ⟨j, hj⟩ ∈ select_gene_nonzerofrac rows genes r ↔
        r < nonzeroFrac rows j)) ∧
    (∀ j (hj : j < genes.length), nonzeroFrac rows j = 0 →
      genes.get ⟨j, hj⟩ ∉ select_gene_nonzerofrac rows genes r) ∧
    (rows ≠ [] → r < 1 → ∀ j (hj : j < genes.length),
      (∀ row ∈ rows, row.getD j (some 0) ≠ some 0) →
      genes.get ⟨j, hj⟩ ∈ select_gene_nonzerofrac rows genes r) := by
  have hmapr : (List.range genes.length).map (fun j => genes.getD j "") = genes := by
    apply List.ext_get
    · simp
    · intro n hn1 hn2
      simp only [List.get_eq_getElem, List.getElem_map, List.getElem_range]
      exact List.getD_eq_getElem genes "" hn2
  have hiff : ∀ j (hj : j < genes.length),
      (genes.get ⟨j, hj⟩ ∈ select_gene_nonzerofrac rows genes r ↔
        r < nonzeroFrac rows j) := by
    intro j hj
    unfold select_gene_nonzerofrac selectGeneIdx
    constructor
    · intro hmem
      obtain ⟨i, hi, hfi⟩ := List.mem_map.mp hmem
      have hip := List.mem_filter.mp hi
      have hilt : i < genes.length := List.mem_range.mp hip.1
      have hgd : genes.getD i "" = genes.get ⟨i, hilt⟩ := by
        rw [List.getD_eq_getElem genes "" hilt]
        simp
      rw [hgd] at hfi
      have hij : i = j := by
        have := (List.Nodup.get_inj_iff hnd).mp hfi
        exact congrArg Fin.val this
      rw [hij] at hip
      simpa using hip.2
    · intro hlt
      refine List.mem_map.mpr ⟨j, List.mem_filter.mpr
        ⟨List.mem_range.mpr hj, by simpa using hlt⟩, ?_⟩
      rw [List.getD_eq_getElem genes "" hj]
      simp
  refine ⟨?_, hiff, ?_, ?_⟩
  · have hsub := List.Sublist.map (fun j => genes.getD j "")
      (List.filter_sublist (p := fun j => decide (r < nonzeroFrac rows j))
        (List.range genes.length))
    rw [hmapr] at hsub
    exact hsub
  · intro j hj hfrac hmem
    have := (hiff j hj).mp hmem
    rw [hfrac] at this
    linarith
  · intro hne hr1 j hj hall
    refine (hiff j hj).mpr ?_
    have hcount : rows.countP (fun row => decide (row.getD j (some 0) ≠ some 0)) =
        rows.length :=
      List.countP_eq_length.mpr (fun row hrow => decide_eq_true (hall row hrow))
    have hlen0 : rows.length ≠ 0 := fun h => hne (List.length_eq_zero.mp h)
    have : nonzeroFrac rows j = 1 := by
      unfold nonzeroFrac
      rw [hcount]
      exact div_self (by exact_mod_cast hlen0)
    rw [this]
    exact hr1

/-- Witness for C9: two genes over two cells — G1 non-zero everywhere is
selected at threshold 1/2, G2 non-zero in half the cells is not, and the
output is a sublist of the columns. -/
theorem gene_filter_spec_witness :
    "G1" ∈ select_gene_nonzerofrac [[some 1, some 0], [some 1, some 2]]
      ["G1", "G2"] (1/2) ∧
    "G2" ∉ select_gene_nonzerofrac [[some 1, some 0], [some 1, some 2]]
      ["G1", "G2"] (1/2) ∧
    (select_gene_nonzerofrac [[some 1, some 0], [some 1, some 2]]
      ["G1", "G2"] (1/2)).Sublist ["G1", "G2"] := by
  have h := gene_filter_spec [[some 1, some 0], [some 1, some 2]] ["G1", "G2"]
    (1/2) (by norm_num) (by norm_num) (by decide)
  have hfrac0 : nonzeroFrac [[some 1, some 0], [some 1, some 2]] 0 = 1 := by
    unfold nonzeroFrac
    rw [show ([[some 1, some 0], [some 1, some 2]] :
        List (List (Option ℚ))).countP
        (fun row => decide (row.getD 0 (some 0) ≠ some 0)) = 2 from by decide]
    norm_num
  have hfrac1 : nonzeroFrac [[some 1, some 0], [some 1, some 2]] 1 = 1/2 := by
    unfold nonzeroFrac
    rw [show ([[some 1, some 0], [some 1, some 2]] :
        List (List (Option ℚ))).countP
        (fun row => decide (row.getD 1 (some 0) ≠ some 0)) = 1 from by decide]
    norm_num
  refine ⟨?_, ?_, h.1⟩
  · have := (h.2.1 0 (by decide)).mpr (by rw [hfrac0]; norm_num)
    exact this
  · intro hmem
    have := (h.2.1 1 (by decide)).mp hmem
    rw [hfrac1] at this
    exact absurd this (by norm_num)
